import Mathlib

/-!
Verification of the pax-calculator-web core.

A shallow embedding of the core calculation logic of the
`pax-calculator-web` repository (`src/lib/pax-calculator.ts`, types from
`src/lib/types.ts`): time-string parsing, time formatting, the PAX
conversion formula, and the dataset validator.

JavaScript numbers are modelled as rationals (ℚ).  `Number.toFixed(3)`
followed by `Number(...)` is modelled as exact decimal rounding to the
3rd decimal with ties rounding up (`⌊1000 q + 1/2⌋ / 1000`); exact ties
at the 4th decimal are not representable as binary doubles, so on every
value the source can actually produce this agrees with the runtime
behaviour, and it matches the test suite's expectations
(`formatTime(0.9995) = "1.000"`, `formatTime(0.9994) = "0.999"`).
Strings are Lean `String`s (in this toolchain a structure wrapping
`List Char`), and the anchored regular expressions of the source are
modelled by explicit maximal-munch matchers, which agree with the
anchored regexes because every quantified class `\d` is followed either
by a non-digit literal or by the end anchor.
-/

namespace PaxWeb

/-! ## Characters and decimal digit strings -/

/-- The numeric value of an ASCII digit character (`'0'` ↦ 0 … `'9'` ↦ 9). -/
def charToDigit (c : Char) : Nat := c.toNat - 48

/-- The ASCII digit character for a value below ten (junk above ten). -/
def digitChar (d : Nat) : Char :=
  match d with
  | 0 => '0' | 1 => '1' | 2 => '2' | 3 => '3' | 4 => '4'
  | 5 => '5' | 6 => '6' | 7 => '7' | 8 => '8' | 9 => '9'
  | _ => '*'

/-- The numeric value of a most-significant-first digit string, exactly as
`parseInt` accumulates it left to right on an all-digit string. -/
def digitsToNat (ds : List Char) : Nat :=
  ds.foldl (fun acc c => 10 * acc + charToDigit c) 0

/-- Least-significant-first digit value; the induction-friendly companion of
`digitsToNat`. -/
def dtnRev : List Char → Nat
  | [] => 0
  | c :: cs => charToDigit c + 10 * dtnRev cs

/-- Fuel-driven decimal rendering, least significant digit first.  The fuel
only bounds the recursion depth so that the definition is structural and
reduces inside the kernel; `natToDigitsRev` always supplies enough. -/
def ntdFuel : Nat → Nat → List Char
  | 0, _ => []
  | f + 1, n => if n < 10 then [digitChar n] else digitChar (n % 10) :: ntdFuel f (n / 10)

/-- Decimal digits of `n`, least significant first (`0` ↦ `['0']`). -/
def natToDigitsRev (n : Nat) : List Char := ntdFuel (n + 1) n

/-- Decimal digits of `n`, most significant first, no leading zeros:
the JavaScript rendering of a non-negative whole number. -/
def natToDecimal (n : Nat) : List Char := (natToDigitsRev n).reverse

/-- JavaScript rendering of a non-negative whole number as a `String`. -/
def natRepr (n : Nat) : String := String.mk (natToDecimal n)

/-- JavaScript rendering of a whole number. -/
def intRepr (i : Int) : String :=
  if i < 0 then "-" ++ natRepr i.natAbs else natRepr i.natAbs

/-! ## JavaScript `String.prototype.trim` -/

/-- Characters that `String.prototype.trim` strips: ECMAScript WhiteSpace and
LineTerminator code points. -/
def isJsWhitespace (c : Char) : Bool :=
  c == ' ' || c == '\t' || c == '\n' || c == '\r' ||
  c == '\u000b' || c == '\u000c' || c == '\u00a0' || c == '\ufeff' ||
  c == '\u1680' || c == '\u2000' || c == '\u2001' || c == '\u2002' ||
  c == '\u2003' || c == '\u2004' || c == '\u2005' || c == '\u2006' ||
  c == '\u2007' || c == '\u2008' || c == '\u2009' || c == '\u200a' ||
  c == '\u2028' || c == '\u2029' || c == '\u202f' || c == '\u205f' ||
  c == '\u3000'

def jsTrim (s : String) : String :=
  String.mk (((s.data.dropWhile isJsWhitespace).reverse.dropWhile isJsWhitespace).reverse)

/-! ## The time-string parser (`parseTimeString`)

Each of the four anchored regexes of the source is modelled by a
maximal-munch decomposition.  This is equivalent to the regex: in
`^(\d+):(\d{1,2})\.(\d{1,3})$` (and the others) every digit group is
followed by a non-digit literal (`:` or `.`) or by the `$` anchor, so a
successful regex match must give each group exactly the maximal digit
run, and the match succeeds iff the maximal runs satisfy the length
bounds and the literals appear between them. -/

/-- Regex `^(\d+):(\d{1,2})\.(\d{1,3})$` — captures (minutes, seconds, milliseconds). -/
def matchMinSec (cs : List Char) : Option (List Char × List Char × List Char) :=
  let m := cs.takeWhile Char.isDigit
  let r1 := cs.dropWhile Char.isDigit
  if m.length = 0 then none else
  match r1 with
  | ':' :: r2 =>
    let s := r2.takeWhile Char.isDigit
    let r3 := r2.dropWhile Char.isDigit
    if s.length = 0 ∨ 2 < s.length then none else
    match r3 with
    | '.' :: r4 =>
      let ms := r4.takeWhile Char.isDigit
      let r5 := r4.dropWhile Char.isDigit
      if ms.length = 0 ∨ 3 < ms.length ∨ r5 ≠ [] then none else some (m, s, ms)
    | _ => none
  | _ => none

/-- Regex `^(\d+):(\d{1,2}):(\d{1,2})\.(\d{1,3})$` — captures
(hours, minutes, seconds, milliseconds). -/
def matchHours (cs : List Char) :
    Option (List Char × List Char × List Char × List Char) :=
  let h := cs.takeWhile Char.isDigit
  let r1 := cs.dropWhile Char.isDigit
  if h.length = 0 then none else
  match r1 with
  | ':' :: r2 =>
    let m := r2.takeWhile Char.isDigit
    let r3 := r2.dropWhile Char.isDigit
    if m.length = 0 ∨ 2 < m.length then none else
    match r3 with
    | ':' :: r4 =>
      let s := r4.takeWhile Char.isDigit
      let r5 := r4.dropWhile Char.isDigit
      if s.length = 0 ∨ 2 < s.length then none else
      match r5 with
      | '.' :: r6 =>
        let ms := r6.takeWhile Char.isDigit
        let r7 := r6.dropWhile Char.isDigit
        if ms.length = 0 ∨ 3 < ms.length ∨ r7 ≠ [] then none else some (h, m, s, ms)
      | _ => none
    | _ => none
  | _ => none

/-- Regex `^(\d+)\.(\d{1,3})$` — captures (seconds, milliseconds). -/
def matchDecimal (cs : List Char) : Option (List Char × List Char) :=
  let s := cs.takeWhile Char.isDigit
  let r1 := cs.dropWhile Char.isDigit
  if s.length = 0 then none else
  match r1 with
  | '.' :: r2 =>
    let ms := r2.takeWhile Char.isDigit
    let r3 := r2.dropWhile Char.isDigit
    if ms.length = 0 ∨ 3 < ms.length ∨ r3 ≠ [] then none else some (s, ms)
  | _ => none

/-- Regex `^(\d+)$` — the whole-seconds grammar. -/
def matchWhole (cs : List Char) : Option (List Char) :=
  let s := cs.takeWhile Char.isDigit
  let r1 := cs.dropWhile Char.isDigit
  if s.length = 0 ∨ r1 ≠ [] then none else some s

/-- Model of `milliseconds.padEnd(3, '0')`: right-pad the digit run to 3 digits. -/
def padEnd3 (ds : List Char) : List Char := ds ++ List.replicate (3 - ds.length) '0'

/-- Body of `parseTimeString` after the empty check: try the four grammars in
source order on the cleaned character list; `timeString` is only used for the
error message (the source interpolates the original argument). -/
def parseCleaned (timeString : String) (cleaned : List Char) : Except String ℚ :=
  match matchMinSec cleaned with
  | some (minutes, seconds, milliseconds) =>
    .ok ((digitsToNat minutes * 60 + digitsToNat seconds : ℕ) +
      (digitsToNat (padEnd3 milliseconds) : ℕ) / (1000 : ℚ))
  | none =>
  match matchHours cleaned with
  | some (hours, minutes, seconds, milliseconds) =>
    .ok ((digitsToNat hours * 3600 + digitsToNat minutes * 60 + digitsToNat seconds : ℕ) +
      (digitsToNat (padEnd3 milliseconds) : ℕ) / (1000 : ℚ))
  | none =>
  match matchDecimal cleaned with
  | some (seconds, milliseconds) =>
    .ok ((digitsToNat seconds : ℕ) +
      (digitsToNat (padEnd3 milliseconds) : ℕ) / (1000 : ℚ))
  | none =>
  match matchWhole cleaned with
  | some seconds => .ok (digitsToNat seconds : ℕ)
  | none => .error ("Invalid time format: " ++ timeString)

/-- Function `parseTimeString` from `src/lib/pax-calculator.ts`: parse a time string to
decimal seconds, trying the four grammars in source order. -/
def parseTimeString (timeString : String) : Except String ℚ :=
  if (jsTrim timeString).data.isEmpty then .error "Time string cannot be empty" else
  parseCleaned timeString (jsTrim timeString).data

/-! ## Time formatting (`formatTime`) -/

/-- Model of `Number(x.toFixed(3))`: decimal rounding to 3 places, ties up. -/
def jsRound3 (q : ℚ) : ℚ := (⌊1000 * q + 1 / 2⌋ : ℤ) / 1000

/-- The digit string of `toFixed(3)` for a non-negative value: integer part,
dot, exactly three fractional digits. -/
def toFixed3 (q : ℚ) : String :=
  natRepr ((⌊1000 * q + 1 / 2⌋ : ℤ).toNat / 1000) ++ "." ++
    String.mk (List.replicate
        (3 - (natToDecimal ((⌊1000 * q + 1 / 2⌋ : ℤ).toNat % 1000)).length) '0'
      ++ natToDecimal ((⌊1000 * q + 1 / 2⌋ : ℤ).toNat % 1000))

/-- Function `formatTime` from `src/lib/pax-calculator.ts`: reject negatives, then
render with exactly three decimal places. -/
def formatTime (seconds : ℚ) : Except String String :=
  if seconds < 0 then .error "Time cannot be negative"
  else .ok (toFixed3 seconds)

/-- Parse, then format: the round-trip the spec's §8 property is about. -/
def roundTrip (s : String) : Except String String :=
  (parseTimeString s).bind formatTime

/-! ## Data model (`src/lib/types.ts`) -/

/-- Interface `SoloClass`: a racing class with its PAX index. -/
structure SoloClass where
  code : String
  name : String
  paxIndex : ℚ
  isActive : Bool
deriving DecidableEq, Repr

/-- Interface `SoloClassGroup`: a named group of classes. -/
structure SoloClassGroup where
  id : String
  name : String
  description : String
  classes : List SoloClass
deriving DecidableEq, Repr

/-- Interface `PaxIndex`: one versioned dataset.  `classesByCode` is a JavaScript
object (`Record<string, SoloClass>`), modelled as an association list whose
distinct keys are `Object.keys`. -/
structure PaxIndex where
  year : Int
  indexType : String
  version : String
  releaseDate : String
  lastUpdated : String
  classGroups : List SoloClassGroup
  classesByCode : List (String × SoloClass)
deriving DecidableEq, Repr

/-- Interface `PaxCalculationResult`: the output of one conversion.  `calculatedAt`
captures the impure `new Date().toISOString()`; the instant is passed in as
the extra `now` argument of `calculatePaxTime`. -/
structure PaxCalculationResult where
  inputTime : ℚ
  inputClass : SoloClass
  outputTime : ℚ
  outputClass : SoloClass
  timeDifference : ℚ
  isFaster : Bool
  calculatedAt : String
deriving DecidableEq, Repr

/-- Interface `PaxValidationResult`. -/
structure PaxValidationResult where
  isValid : Bool
  errors : List String
  warnings : List String
  classCount : Nat
  groupCount : Nat
deriving DecidableEq, Repr

/-! ## The PAX conversion engine (`calculatePaxTime`) -/

/-- Function `calculatePaxTime` from `src/lib/pax-calculator.ts`.  `throw` is
modelled as `Except.error`; `now` stands for the impure timestamp. -/
def calculatePaxTime (inputTime : ℚ) (inputClass outputClass : SoloClass)
    (now : String) : Except String PaxCalculationResult :=
  if inputTime ≤ 0 then .error "Input time must be greater than 0"
  else if inputClass.paxIndex ≤ 0 ∨ outputClass.paxIndex ≤ 0 then
    .error "PAX indices must be greater than 0"
  else
    let outputTime := inputTime * (inputClass.paxIndex / outputClass.paxIndex)
    let timeDifference := outputTime - inputTime
    .ok { inputTime := inputTime
          inputClass := inputClass
          outputTime := jsRound3 outputTime
          outputClass := outputClass
          timeDifference := jsRound3 timeDifference
          isFaster := decide (timeDifference < 0)
          calculatedAt := now }


/-! ## Lemmas: digit characters -/

theorem isDigit_toNat_bounds {c : Char} (h : c.isDigit = true) :
    48 ≤ c.toNat ∧ c.toNat ≤ 57 := by
  simp only [Char.isDigit, Bool.and_eq_true, decide_eq_true_eq] at h
  exact h

theorem charToDigit_lt_ten {c : Char} (h : c.isDigit = true) : charToDigit c < 10 := by
  obtain ⟨h1, h2⟩ := isDigit_toNat_bounds h
  simp only [charToDigit]
  omega

theorem char_eq_of_toNat_eq {a b : Char} (h : a.toNat = b.toNat) : a = b :=
  Char.eq_of_val_eq (UInt32.ext h)

theorem charToDigit_inj {a b : Char} (ha : a.isDigit = true) (hb : b.isDigit = true)
    (h : charToDigit a = charToDigit b) : a = b := by
  obtain ⟨ha1, _⟩ := isDigit_toNat_bounds ha
  obtain ⟨hb1, _⟩ := isDigit_toNat_bounds hb
  simp only [charToDigit] at h
  exact char_eq_of_toNat_eq (by omega)

theorem charToDigit_pos {c : Char} (hd : c.isDigit = true) (h0 : c ≠ '0') :
    1 ≤ charToDigit c := by
  obtain ⟨h1, _⟩ := isDigit_toNat_bounds hd
  have : c.toNat ≠ 48 := fun he => h0 (char_eq_of_toNat_eq (by rw [he]; rfl))
  simp only [charToDigit]
  omega

theorem digitChar_spec : ∀ d < 10, (digitChar d).isDigit = true ∧
    charToDigit (digitChar d) = d ∧ (d ≠ 0 → digitChar d ≠ '0') := by decide

/-! ## Lemmas: digit strings and their numeric values -/

theorem digitsToNat_append_singleton (ds : List Char) (c : Char) :
    digitsToNat (ds ++ [c]) = 10 * digitsToNat ds + charToDigit c := by
  simp [digitsToNat, List.foldl_append]

theorem digitsToNat_eq_dtnRev_reverse (ds : List Char) :
    digitsToNat ds = dtnRev ds.reverse := by
  induction ds using List.reverseRecOn with
  | nil => rfl
  | append_singleton ds c ih =>
    rw [digitsToNat_append_singleton, ih, List.reverse_append]
    simp [dtnRev]
    omega

theorem dtnRev_append_singleton (ds : List Char) (c : Char) :
    dtnRev (ds ++ [c]) = dtnRev ds + 10 ^ ds.length * charToDigit c := by
  induction ds with
  | nil => simp [dtnRev]
  | cons a as ih =>
    simp [dtnRev, ih]
    ring

theorem dtnRev_lt {ls : List Char} (h : ∀ c ∈ ls, c.isDigit = true) :
    dtnRev ls < 10 ^ ls.length := by
  induction ls with
  | nil => simp [dtnRev]
  | cons c cs ih =>
    have hc := charToDigit_lt_ten (h c (List.mem_cons_self c cs))
    have hcs := ih fun x hx => h x (List.mem_cons_of_mem c hx)
    simp only [dtnRev, List.length_cons, pow_succ]
    omega

theorem dtnRev_ge_one {ls : List Char} (h : ∀ c ∈ ls, c.isDigit = true)
    (hne : ls ≠ []) (hlast : ls.getLast? ≠ some '0') : 1 ≤ dtnRev ls := by
  induction ls with
  | nil => exact absurd rfl hne
  | cons c cs ih =>
    cases cs with
    | nil =>
      have hc : c ≠ '0' := fun he => hlast (by rw [he]; rfl)
      have := charToDigit_pos (h c (List.mem_cons_self c [])) hc
      simp only [dtnRev]
      omega
    | cons c2 cs2 =>
      have hrec := ih (fun x hx => h x (List.mem_cons_of_mem c hx))
        (List.cons_ne_nil c2 cs2)
        (by rwa [List.getLast?_cons_cons] at hlast)
      simp only [dtnRev] at hrec ⊢
      omega

/-! ## Lemmas: decimal rendering -/

theorem ntdFuel_succ (f n : Nat) : ntdFuel (f + 1) n =
    if n < 10 then [digitChar n] else digitChar (n % 10) :: ntdFuel f (n / 10) := rfl

theorem ntdFuel_congr : ∀ f1 : Nat, ∀ f2 n : Nat, n < f1 → n < f2 →
    ntdFuel f1 n = ntdFuel f2 n := by
  intro f1
  induction f1 with
  | zero => intro f2 n h1 _; omega
  | succ g1 ih =>
    intro f2 n h1 h2
    cases f2 with
    | zero => omega
    | succ g2 =>
      rw [ntdFuel_succ, ntdFuel_succ]
      by_cases hn : n < 10
      · rw [if_pos hn, if_pos hn]
      · rw [if_neg hn, if_neg hn]
        have hdiv : n / 10 < n := Nat.div_lt_self (by omega) (by omega)
        rw [ih g2 (n / 10) (by omega) (by omega)]

theorem natToDigitsRev_lt10 {n : Nat} (h : n < 10) :
    natToDigitsRev n = [digitChar n] := by
  show ntdFuel (n + 1) n = _
  rw [ntdFuel_succ, if_pos h]

theorem natToDigitsRev_ge10 {n : Nat} (h : 10 ≤ n) :
    natToDigitsRev n = digitChar (n % 10) :: natToDigitsRev (n / 10) := by
  have hdiv : n / 10 < n := Nat.div_lt_self (by omega) (by omega)
  show ntdFuel (n + 1) n = digitChar (n % 10) :: ntdFuel (n / 10 + 1) (n / 10)
  rw [ntdFuel_succ, if_neg (by omega : ¬ n < 10)]
  congr 1
  exact ntdFuel_congr n (n / 10 + 1) (n / 10) (by omega) (by omega)

theorem natToDigitsRev_ne_nil (n : Nat) : natToDigitsRev n ≠ [] := by
  by_cases h : n < 10
  · rw [natToDigitsRev_lt10 h]; simp
  · rw [natToDigitsRev_ge10 (by omega)]; simp

theorem getLast?_cons_of_ne {a : Char} {l : List Char} (h : l ≠ []) :
    (a :: l).getLast? = l.getLast? := by
  cases l with
  | nil => exact absurd rfl h
  | cons b bs => exact List.getLast?_cons_cons

theorem dtnRev_natToDigitsRev (n : Nat) : dtnRev (natToDigitsRev n) = n := by
  induction n using Nat.strong_induction_on with
  | _ n ih =>
    by_cases h : n < 10
    · rw [natToDigitsRev_lt10 h]
      simp only [dtnRev, (digitChar_spec n h).2.1]
      omega
    · rw [natToDigitsRev_ge10 (by omega)]
      have hdiv : n / 10 < n := Nat.div_lt_self (by omega) (by omega)
      simp only [dtnRev, ih (n / 10) hdiv,
        (digitChar_spec (n % 10) (Nat.mod_lt n (by omega))).2.1]
      omega

theorem natToDigitsRev_digits (n : Nat) : ∀ c ∈ natToDigitsRev n, c.isDigit = true := by
  induction n using Nat.strong_induction_on with
  | _ n ih =>
    by_cases h : n < 10
    · rw [natToDigitsRev_lt10 h]
      intro c hc
      rw [List.mem_singleton] at hc
      rw [hc]
      exact (digitChar_spec n h).1
    · rw [natToDigitsRev_ge10 (by omega)]
      intro c hc
      rcases List.mem_cons.mp hc with hc | hc
      · rw [hc]; exact (digitChar_spec (n % 10) (Nat.mod_lt n (by omega))).1
      · exact ih (n / 10) (Nat.div_lt_self (by omega) (by omega)) c hc

theorem natToDigitsRev_last {n : Nat} (h : n ≠ 0) :
    (natToDigitsRev n).getLast? ≠ some '0' := by
  induction n using Nat.strong_induction_on with
  | _ n ih =>
    by_cases h10 : n < 10
    · rw [natToDigitsRev_lt10 h10]
      intro he
      simp only [List.getLast?_singleton, Option.some.injEq] at he
      exact ((digitChar_spec n h10).2.2 h) he
    · rw [natToDigitsRev_ge10 (by omega)]
      have hdiv : n / 10 < n := Nat.div_lt_self (by omega) (by omega)
      rw [getLast?_cons_of_ne (natToDigitsRev_ne_nil (n / 10))]
      exact ih (n / 10) hdiv (by omega)

theorem natToDigitsRev_length_le {n k : Nat} (h : n < 10 ^ k) (hk : 1 ≤ k) :
    (natToDigitsRev n).length ≤ k := by
  induction n using Nat.strong_induction_on generalizing k with
  | _ n ih =>
    by_cases h10 : n < 10
    · rw [natToDigitsRev_lt10 h10]
      simpa using hk
    · rw [natToDigitsRev_ge10 (by omega)]
      have hk2 : 2 ≤ k := by
        by_contra hlt
        have hk1 : k = 1 := by omega
        rw [hk1, pow_one] at h
        omega
      have hdivk : n / 10 < 10 ^ (k - 1) := by
        have he : 10 ^ k = 10 * 10 ^ (k - 1) := by
          rw [← pow_succ']
          congr 1
          omega
        rw [he] at h
        omega
      have := ih (n / 10) (Nat.div_lt_self (by omega) (by omega)) hdivk (by omega)
      simp only [List.length_cons]
      omega

/-! ## Round trip between digit strings and numbers -/

theorem dtnRev_inj : ∀ u v : List Char, (∀ c ∈ u, c.isDigit = true) →
    (∀ c ∈ v, c.isDigit = true) → u ≠ [] → v ≠ [] →
    (u.getLast? ≠ some '0' ∨ u = ['0']) → (v.getLast? ≠ some '0' ∨ v = ['0']) →
    dtnRev u = dtnRev v → u = v := by
  intro u
  induction u with
  | nil => intro v _ _ hne; exact absurd rfl hne
  | cons a u' ih =>
    intro v hu hv _ hvne huv hvv heq
    cases v with
    | nil => exact absurd rfl hvne
    | cons b v' =>
      have ha := charToDigit_lt_ten (hu a (List.mem_cons_self a u'))
      have hb := charToDigit_lt_ten (hv b (List.mem_cons_self b v'))
      simp only [dtnRev] at heq
      have hdig : charToDigit a = charToDigit b := by omega
      have hv4 : dtnRev u' = dtnRev v' := by omega
      have hab : a = b := charToDigit_inj (hu a (List.mem_cons_self a u'))
        (hv b (List.mem_cons_self b v')) hdig
      subst hab
      have hlastu : u' ≠ [] → u'.getLast? ≠ some '0' := by
        intro hne0
        rcases huv with huv | huv
        · rwa [getLast?_cons_of_ne hne0] at huv
        · injection huv with h1 h2
          exact absurd h2 hne0
      have hlastv : v' ≠ [] → v'.getLast? ≠ some '0' := by
        intro hne0
        rcases hvv with hvv | hvv
        · rwa [getLast?_cons_of_ne hne0] at hvv
        · injection hvv with h1 h2
          exact absurd h2 hne0
      by_cases hu0 : u' = []
      · by_cases hv0 : v' = []
        · rw [hu0, hv0]
        · exfalso
          have h1 := dtnRev_ge_one (fun x hx => hv x (List.mem_cons_of_mem a hx))
            hv0 (hlastv hv0)
          rw [hu0] at hv4
          simp only [dtnRev] at hv4
          omega
      · by_cases hv0 : v' = []
        · exfalso
          have h1 := dtnRev_ge_one (fun x hx => hu x (List.mem_cons_of_mem a hx))
            hu0 (hlastu hu0)
          rw [hv0] at hv4
          simp only [dtnRev] at hv4
          omega
        · have := ih v' (fun x hx => hu x (List.mem_cons_of_mem a hx))
            (fun x hx => hv x (List.mem_cons_of_mem a hx))
            hu0 hv0 (Or.inl (hlastu hu0)) (Or.inl (hlastv hv0)) hv4
          rw [this]

theorem natToDigitsRev_dtnRev {ls : List Char} (hd : ∀ c ∈ ls, c.isDigit = true)
    (hne : ls ≠ []) (hval : ls.getLast? ≠ some '0' ∨ ls = ['0']) :
    natToDigitsRev (dtnRev ls) = ls := by
  rcases hval with hval | hval
  · by_cases hz : dtnRev ls = 0
    · exfalso
      have := dtnRev_ge_one hd hne hval
      omega
    · exact dtnRev_inj (natToDigitsRev (dtnRev ls)) ls (natToDigitsRev_digits _)
        hd (natToDigitsRev_ne_nil _) hne (Or.inl (natToDigitsRev_last hz)) (Or.inl hval)
        (dtnRev_natToDigitsRev _)
  · rw [hval]
    decide


theorem natToDecimal_digitsToNat {S : List Char} (hd : ∀ c ∈ S, c.isDigit = true)
    (hne : S ≠ []) (hlead : S.head? ≠ some '0' ∨ S = ['0']) :
    natToDecimal (digitsToNat S) = S := by
  have hrd : ∀ c ∈ S.reverse, c.isDigit = true := fun c hc =>
    hd c (List.mem_reverse.mp hc)
  have hrne : S.reverse ≠ [] := by
    intro h
    exact hne (by simpa using congrArg List.reverse h)
  have hrval : S.reverse.getLast? ≠ some '0' ∨ S.reverse = ['0'] := by
    rcases hlead with h | h
    · left; rwa [List.getLast?_reverse]
    · right; rw [h]; rfl
  have := natToDigitsRev_dtnRev hrd hrne hrval
  rw [natToDecimal, digitsToNat_eq_dtnRev_reverse, this, List.reverse_reverse]

theorem digitsToNat_lt {S : List Char} (hd : ∀ c ∈ S, c.isDigit = true) :
    digitsToNat S < 10 ^ S.length := by
  rw [digitsToNat_eq_dtnRev_reverse]
  have := dtnRev_lt (fun c hc => hd c (List.mem_reverse.mp hc))
  rwa [List.length_reverse] at this

theorem natToDecimal_length_le {n k : Nat} (h : n < 10 ^ k) (hk : 1 ≤ k) :
    (natToDecimal n).length ≤ k := by
  rw [natToDecimal, List.length_reverse]
  exact natToDigitsRev_length_le h hk

theorem dtnRev_cons_zero (M : List Char) :
    digitsToNat ('0' :: M) = digitsToNat M := by
  rw [digitsToNat_eq_dtnRev_reverse, digitsToNat_eq_dtnRev_reverse,
    List.reverse_cons, dtnRev_append_singleton]
  have : charToDigit '0' = 0 := rfl
  rw [this]
  ring

theorem leftPad_natToDecimal : ∀ M : List Char, (∀ c ∈ M, c.isDigit = true) → M ≠ [] →
    List.replicate (M.length - (natToDecimal (digitsToNat M)).length) '0' ++
      natToDecimal (digitsToNat M) = M := by
  intro M
  induction M with
  | nil => intro _ h; exact absurd rfl h
  | cons c M' ih =>
    intro hd _
    by_cases hc : c = '0'
    · cases hM' : M' with
      | nil =>
        subst hc hM'
        decide
      | cons d M'' =>
        subst hc
        subst hM'
        rw [dtnRev_cons_zero]
        have hdM : ∀ x ∈ d :: M'', x.isDigit = true :=
          fun x hx => hd x (List.mem_cons_of_mem _ hx)
        have hlen : (natToDecimal (digitsToNat (d :: M''))).length ≤ (d :: M'').length :=
          natToDecimal_length_le (digitsToNat_lt hdM) (by simp)
        have hrep : ('0' :: d :: M'').length - (natToDecimal (digitsToNat (d :: M''))).length
            = (((d :: M'').length - (natToDecimal (digitsToNat (d :: M''))).length) + 1) := by
          simp only [List.length_cons] at hlen ⊢
          omega
        rw [hrep, List.replicate_succ, List.cons_append]
        rw [ih hdM (List.cons_ne_nil d M'')]
    · have hrt : natToDecimal (digitsToNat (c :: M')) = c :: M' :=
        natToDecimal_digitsToNat hd (List.cons_ne_nil c M')
          (Or.inl (by simpa using hc))
      rw [hrt]
      simp


/-! ## Lemmas: trimming and maximal digit runs -/

theorem dropWhile_of_head_false {p : Char → Bool} : ∀ {l : List Char},
    (∀ c ∈ l, p c = false) → l.dropWhile p = l := by
  intro l h
  cases l with
  | nil => rfl
  | cons c t =>
    rw [List.dropWhile_cons, h c (List.mem_cons_self c t)]
    simp

theorem jsTrim_eq_self {s : String} (h : ∀ c ∈ s.data, isJsWhitespace c = false) :
    jsTrim s = s := by
  cases s with
  | mk data =>
    simp only [jsTrim]
    rw [dropWhile_of_head_false h]
    rw [dropWhile_of_head_false (fun c hc => h c (List.mem_reverse.mp hc))]
    rw [List.reverse_reverse]

theorem takeWhile_all {p : Char → Bool} : ∀ {l : List Char},
    (∀ c ∈ l, p c = true) → l.takeWhile p = l ∧ l.dropWhile p = [] := by
  intro l h
  induction l with
  | nil => exact ⟨rfl, rfl⟩
  | cons c t ih =>
    have hc := h c (List.mem_cons_self c t)
    have := ih (fun x hx => h x (List.mem_cons_of_mem c hx))
    rw [List.takeWhile_cons, List.dropWhile_cons, hc]
    simp only [if_pos]
    exact ⟨by rw [this.1], this.2⟩

theorem takeWhile_append_stop {p : Char → Bool} : ∀ (l1 : List Char) {c : Char}
    (l2 : List Char), (∀ x ∈ l1, p x = true) → p c = false →
    (l1 ++ c :: l2).takeWhile p = l1 ∧ (l1 ++ c :: l2).dropWhile p = c :: l2 := by
  intro l1
  induction l1 with
  | nil =>
    intro c l2 _ hc
    rw [List.nil_append]
    rw [List.takeWhile_cons, List.dropWhile_cons, hc]
    simp
  | cons a t ih =>
    intro c l2 h1 hc
    have ha := h1 a (List.mem_cons_self a t)
    have := ih l2 (fun x hx => h1 x (List.mem_cons_of_mem a hx)) hc
    rw [List.cons_append, List.takeWhile_cons, List.dropWhile_cons, ha]
    simp only [if_pos]
    exact ⟨by rw [this.1], this.2⟩

theorem isDigit_dot : ('.' : Char).isDigit = false := by decide

/-! ## Evaluating the grammar matchers on decimal-seconds strings -/

theorem matchMinSec_decimal {S M : List Char} (hS : ∀ c ∈ S, c.isDigit = true) :
    matchMinSec (S ++ '.' :: M) = none := by
  obtain ⟨ht, hdr⟩ := takeWhile_append_stop S M hS isDigit_dot
  simp only [matchMinSec, ht, hdr]
  by_cases h0 : S.length = 0
  · simp [h0]
  · simp [h0]

theorem matchHours_decimal {S M : List Char} (hS : ∀ c ∈ S, c.isDigit = true) :
    matchHours (S ++ '.' :: M) = none := by
  obtain ⟨ht, hdr⟩ := takeWhile_append_stop S M hS isDigit_dot
  simp only [matchHours, ht, hdr]
  by_cases h0 : S.length = 0
  · simp [h0]
  · simp [h0]

theorem matchWhole_decimal {S M : List Char} (hS : ∀ c ∈ S, c.isDigit = true) :
    matchWhole (S ++ '.' :: M) = none := by
  obtain ⟨ht, hdr⟩ := takeWhile_append_stop S M hS isDigit_dot
  simp only [matchWhole, ht, hdr]
  simp

theorem matchDecimal_decimal {S M : List Char} (hS : ∀ c ∈ S, c.isDigit = true)
    (hM : ∀ c ∈ M, c.isDigit = true) (hSne : S ≠ [])
    (hMlen1 : 1 ≤ M.length) (hMlen3 : M.length ≤ 3) :
    matchDecimal (S ++ '.' :: M) = some (S, M) := by
  obtain ⟨ht, hdr⟩ := takeWhile_append_stop S M hS isDigit_dot
  obtain ⟨htM, hdrM⟩ := takeWhile_all hM
  simp only [matchDecimal, ht, hdr, htM, hdrM]
  rw [if_neg (by simpa using hSne)]
  rw [if_neg (by
    push_neg
    refine ⟨by omega, by omega, rfl⟩)]


/-! ## Parsing and formatting decimal-seconds strings -/

theorem ws_false_of_digit {c : Char} (h : c.isDigit = true) :
    isJsWhitespace c = false := by
  simp only [isJsWhitespace, Bool.or_eq_false_iff]
  repeat' apply And.intro
  all_goals
    refine beq_eq_false_iff_ne.mpr (fun he => ?_)
    subst he
    exact absurd h (by decide)

theorem ws_false_dot : isJsWhitespace '.' = false := by decide

theorem parseTimeString_decimal {S M : List Char} (hS : ∀ c ∈ S, c.isDigit = true)
    (hSne : S ≠ []) (hM : ∀ c ∈ M, c.isDigit = true)
    (hMlen1 : 1 ≤ M.length) (hMlen3 : M.length ≤ 3) :
    parseTimeString (String.mk (S ++ '.' :: M)) =
      .ok ((digitsToNat S : ℕ) + (digitsToNat (padEnd3 M) : ℕ) / (1000 : ℚ)) := by
  have hws : ∀ c ∈ (String.mk (S ++ '.' :: M)).data, isJsWhitespace c = false := by
    intro c hc
    rcases List.mem_append.mp hc with hc | hc
    · exact ws_false_of_digit (hS c hc)
    · rcases List.mem_cons.mp hc with hc | hc
      · rw [hc]; exact ws_false_dot
      · exact ws_false_of_digit (hM c hc)
  have htrim := jsTrim_eq_self hws
  have hne2 : ((String.mk (S ++ '.' :: M)).data.isEmpty = true) → False := by
    cases S with
    | nil => exact absurd rfl hSne
    | cons a t => intro h; simp at h
  unfold parseTimeString
  rw [htrim, if_neg hne2]
  simp only [parseCleaned, matchMinSec_decimal hS, matchHours_decimal hS,
    matchDecimal_decimal hS hM hSne hMlen1 hMlen3]

theorem strmk_append (a b : List Char) : String.mk a ++ String.mk b = String.mk (a ++ b) := rfl

theorem floor_thousandths (a b : ℕ) :
    ⌊(1000 : ℚ) * ((a : ℚ) + (b : ℚ) / 1000) + 1 / 2⌋ = (1000 * a + b : ℕ) := by
  have he : (1000 : ℚ) * ((a : ℚ) + (b : ℚ) / 1000) + 1 / 2
      = 1 / 2 + ((1000 * a + b : ℕ) : ℚ) := by
    push_cast
    ring
  rw [he, Int.floor_add_nat]
  norm_num

theorem formatTime_decimal {S M : List Char} (hS : ∀ c ∈ S, c.isDigit = true)
    (hSne : S ≠ []) (hlead : S.head? ≠ some '0' ∨ S = ['0'])
    (hM : ∀ c ∈ M, c.isDigit = true) (hMlen : M.length = 3) :
    formatTime ((digitsToNat S : ℕ) + (digitsToNat M : ℕ) / (1000 : ℚ)) =
      .ok (String.mk (S ++ '.' :: M)) := by
  have hb : digitsToNat M < 1000 := by
    have := digitsToNat_lt hM
    rwa [hMlen] at this
  have hq : (0 : ℚ) ≤ (digitsToNat S : ℕ) + (digitsToNat M : ℕ) / (1000 : ℚ) := by
    positivity
  unfold formatTime
  rw [if_neg (not_lt.mpr hq)]
  unfold toFixed3
  rw [floor_thousandths]
  have hdiv : ((1000 * digitsToNat S + digitsToNat M : ℕ) : ℤ).toNat / 1000
      = digitsToNat S := by
    simp only [Int.toNat_natCast]
    omega
  have hmod : ((1000 * digitsToNat S + digitsToNat M : ℕ) : ℤ).toNat % 1000
      = digitsToNat M := by
    simp only [Int.toNat_natCast]
    omega
  rw [hdiv, hmod]

  have hfrac : List.replicate (3 - (natToDecimal (digitsToNat M)).length) '0' ++
      natToDecimal (digitsToNat M) = M := by
    rw [← hMlen]
    exact leftPad_natToDecimal M hM (by intro h; rw [h] at hMlen; simp at hMlen)
  rw [hfrac]
  have hint : natRepr (digitsToNat S) = String.mk S := by
    rw [natRepr, natToDecimal_digitsToNat hS hSne hlead]
  rw [hint]
  have hdot : ("." : String) = String.mk ['.'] := rfl
  rw [hdot, strmk_append, strmk_append]
  congr 1
  simp

/-- Claim C7 (corrected): with no leading zero in the whole-seconds part, parsing
then formatting a decimal-seconds string `S.mmm` with exactly three
milliseconds digits is the identity. -/
theorem parse_format_roundTrip (S M : List Char) (hS : ∀ c ∈ S, c.isDigit = true)
    (hSne : S ≠ []) (hlead : S.head? ≠ some '0' ∨ S = ['0'])
    (hM : ∀ c ∈ M, c.isDigit = true) (hMlen : M.length = 3) :
    roundTrip (String.mk (S ++ '.' :: M)) = .ok (String.mk (S ++ '.' :: M)) := by
  unfold roundTrip
  rw [parseTimeString_decimal hS hSne hM (by omega) (by omega)]
  have hpad : padEnd3 M = M := by
    simp [padEnd3, hMlen]
  rw [hpad]
  show formatTime _ = _
  exact formatTime_decimal hS hSne hlead hM hMlen

/-- Witness for C7's theorem at the concrete string `"65.123"`. -/
theorem parse_format_roundTrip_witness : roundTrip "65.123" = .ok "65.123" := by
  have h := parse_format_roundTrip ['6', '5'] ['1', '2', '3'] (by decide) (by decide)
    (Or.inl (by decide)) (by decide) (by decide)
  exact h

/-- Counterexample to C7 as stated: the decimal-seconds string `"00.123"` has a
three-digit milliseconds part, yet formatting does not reproduce the leading
zero of the whole-seconds part. -/
theorem parse_format_roundTrip_counterexample :
    roundTrip "00.123" = .ok "0.123" ∧ roundTrip "00.123" ≠ .ok "00.123" := by
  have h1 : roundTrip "00.123" = .ok "0.123" := by
    show roundTrip (String.mk (['0', '0'] ++ '.' :: ['1', '2', '3'])) = _
    unfold roundTrip
    rw [@parseTimeString_decimal ['0', '0'] ['1', '2', '3']
      (by decide) (by decide) (by decide) (by decide) (by decide)]
    have he : (digitsToNat ['0', '0'] : ℕ) = (digitsToNat ['0'] : ℕ) := by decide
    have hp : padEnd3 ['1', '2', '3'] = ['1', '2', '3'] := by decide
    rw [hp, he]
    show formatTime _ = _
    have h2 := @formatTime_decimal ['0'] ['1', '2', '3']
      (by decide) (by decide) (Or.inr rfl) (by decide) (by decide)
    exact h2
  refine ⟨h1, fun hcontra => ?_⟩
  rw [h1] at hcontra
  have : ("0.123" : String) = "00.123" := by injection hcontra
  exact absurd this (by decide)


/-! ## Lemmas: decimal rounding -/

theorem jsRound3_intCast_div (k : ℤ) : jsRound3 ((k : ℚ) / 1000) = (k : ℚ) / 1000 := by
  unfold jsRound3
  have he : (1000 : ℚ) * ((k : ℚ) / 1000) + 1 / 2 = 1 / 2 + (k : ℚ) := by
    ring
  rw [he, Int.floor_add_int]
  norm_num

theorem jsRound3_sub_intCast_div (x : ℚ) (k : ℤ) :
    jsRound3 (x - (k : ℚ) / 1000) = jsRound3 x - (k : ℚ) / 1000 := by
  unfold jsRound3
  have he : (1000 : ℚ) * (x - (k : ℚ) / 1000) + 1 / 2 = (1000 * x + 1 / 2) - (k : ℚ) := by
    ring
  rw [he, Int.floor_sub_int]
  push_cast
  ring

/-! ## Claims about the conversion engine -/

/-- Claim C1 (corrected): on valid inputs the output time is the rounded
product, but the stored time difference is the rounding of the difference
computed from the UNROUNDED output time.  When the input time is itself an
exact multiple of 0.001 the two recipes agree exactly, so
`timeDifference = round(outputTime, 3) − inputTime` holds on such inputs. -/
theorem calculatePaxTime_rounding (t : ℚ) (ic oc : SoloClass) (now : String)
    (ht : 0 < t) (hic : 0 < ic.paxIndex) (hoc : 0 < oc.paxIndex) :
    (calculatePaxTime t ic oc now).map (fun r => r.outputTime)
        = .ok (jsRound3 (t * (ic.paxIndex / oc.paxIndex))) ∧
    (calculatePaxTime t ic oc now).map (fun r => r.timeDifference)
        = .ok (jsRound3 (t * (ic.paxIndex / oc.paxIndex) - t)) ∧
    (∀ k : ℤ, t = (k : ℚ) / 1000 →
      (calculatePaxTime t ic oc now).map
          (fun r => r.timeDifference - (r.outputTime - r.inputTime)) = .ok 0) := by
  have hcond : ¬ (ic.paxIndex ≤ 0 ∨ oc.paxIndex ≤ 0) := by
    push_neg
    exact ⟨hic, hoc⟩
  unfold calculatePaxTime
  rw [if_neg (not_le.mpr ht), if_neg hcond]
  refine ⟨rfl, rfl, ?_⟩
  intro k hk
  simp only [Except.map]
  congr 1
  rw [hk, jsRound3_sub_intCast_div]
  ring

/-- Witness for C1's theorem: the spec's own example, 60.0 converted from PAX
0.844 to PAX 0.83. -/
theorem calculatePaxTime_rounding_witness :
    (calculatePaxTime 60 (⟨"CAM-C", "CAM C", 844/1000, true⟩ : SoloClass)
        (⟨"CS", "C Street", 83/100, true⟩ : SoloClass) "").map (fun r => r.outputTime)
      = .ok (jsRound3 (60 * ((844/1000 : ℚ) / (83/100)))) :=
  (calculatePaxTime_rounding 60 ⟨"CAM-C", "CAM C", 844/1000, true⟩
    ⟨"CS", "C Street", 83/100, true⟩ "" (by norm_num) (by norm_num) (by norm_num)).1

/-- Counterexample to C1 as stated: for inputTime 0.0006 with identical classes
the stored timeDifference is 0, while `round(outputTime, 3) − inputTime`
is 0.0004 — a discrepancy far beyond floating-point tolerance, because the
difference is rounded after being computed from the unrounded output. -/
theorem calculatePaxTime_rounding_counterexample :
    (calculatePaxTime (3/5000) (⟨"T", "T", 1, true⟩ : SoloClass)
        (⟨"T", "T", 1, true⟩ : SoloClass) "").map
      (fun r => (r.timeDifference, r.outputTime - r.inputTime)) = .ok (0, 1/2500) ∧
    ¬ |(0 : ℚ) - 1/2500| < 1/1000000 := by
  constructor
  · unfold calculatePaxTime
    rw [if_neg (by norm_num), if_neg (by norm_num)]
    simp only [Except.map, jsRound3]
    norm_num [Int.floor_eq_iff]
  · rw [zero_sub, abs_neg, abs_of_nonneg (by norm_num : (0 : ℚ) ≤ 1/2500)]
    norm_num

/-- Claim C2 (corrected): `isFaster` is computed from the UNROUNDED time
difference, not from the rounded one stored in the result. -/
theorem isFaster_iff_unrounded (t : ℚ) (ic oc : SoloClass) (now : String)
    (r : PaxCalculationResult) (h : calculatePaxTime t ic oc now = .ok r) :
    r.isFaster = true ↔ t * (ic.paxIndex / oc.paxIndex) - t < 0 := by
  unfold calculatePaxTime at h
  by_cases h1 : t ≤ 0
  · rw [if_pos h1] at h
    exact absurd h (by simp)
  · rw [if_neg h1] at h
    by_cases h2 : ic.paxIndex ≤ 0 ∨ oc.paxIndex ≤ 0
    · rw [if_pos h2] at h
      exact absurd h (by simp)
    · rw [if_neg h2] at h
      injection h with h
      rw [← h]
      simp only [decide_eq_true_eq]

/-- Witness for C2's theorem at inputTime 1, PAX 0.9999 → PAX 1.0 (where the
stored rounded difference is 0 yet `isFaster` is true). -/
theorem isFaster_iff_unrounded_witness :
    ((⟨1, ⟨"TEST1", "Test Class 1", 9999/10000, true⟩, 1,
        ⟨"TEST2", "Test Class 2", 1, true⟩, 0, true, ""⟩ : PaxCalculationResult).isFaster = true
      ↔ (1 : ℚ) * ((9999/10000 : ℚ) / 1) - 1 < 0) :=
  isFaster_iff_unrounded 1 ⟨"TEST1", "Test Class 1", 9999/10000, true⟩
    ⟨"TEST2", "Test Class 2", 1, true⟩ "" _ (by
      unfold calculatePaxTime
      rw [if_neg (by norm_num), if_neg (by norm_num)]
      simp only [jsRound3]
      norm_num [Int.floor_eq_iff])

/-- Counterexample to C2 as stated: at inputTime 1, PAX 0.9999 → 1.0 the result
has `isFaster = true` although its stored (rounded) timeDifference is 0,
which is not strictly negative. -/
theorem isFaster_counterexample :
    (calculatePaxTime 1 (⟨"TEST1", "Test Class 1", 9999/10000, true⟩ : SoloClass)
        (⟨"TEST2", "Test Class 2", 1, true⟩ : SoloClass) "").map
      (fun r => (r.isFaster, decide (r.timeDifference < 0), r.timeDifference))
      = .ok (true, false, 0) := by
  unfold calculatePaxTime
  rw [if_neg (by norm_num), if_neg (by norm_num)]
  simp only [Except.map, jsRound3]
  norm_num [Int.floor_eq_iff]

/-- Claim C3 (corrected): same-class conversion is the identity on the output
time exactly when the input time is a multiple of 0.001 (every parsed or
displayed time is); the time difference is 0 and `isFaster` is false. -/
theorem samePax_identity (X : SoloClass) (t : ℚ) (k : ℤ) (now : String)
    (ht : 0 < t) (hp : 0 < X.paxIndex) (hk : t = (k : ℚ) / 1000) :
    (calculatePaxTime t X X now).map (fun r => (r.outputTime, r.timeDifference, r.isFaster))
      = .ok (t, 0, false) := by
  have hcond : ¬ (X.paxIndex ≤ 0 ∨ X.paxIndex ≤ 0) := by
    push_neg
    exact ⟨hp, hp⟩
  unfold calculatePaxTime
  rw [if_neg (not_le.mpr ht), if_neg hcond]
  have hratio : X.paxIndex / X.paxIndex = 1 := div_self (ne_of_gt hp)
  simp only [Except.map, hratio, mul_one, sub_self]
  have h0 : jsRound3 0 = 0 := by
    unfold jsRound3
    norm_num
  rw [h0, hk, jsRound3_intCast_div]
  simp

/-- Witness for C3's theorem: 60.000 in a class with PAX 0.835. -/
theorem samePax_identity_witness :
    (calculatePaxTime 60 (⟨"SS", "Super Street", 835/1000, true⟩ : SoloClass)
        (⟨"SS", "Super Street", 835/1000, true⟩ : SoloClass) "").map
      (fun r => (r.outputTime, r.timeDifference, r.isFaster)) = .ok (60, 0, false) :=
  samePax_identity ⟨"SS", "Super Street", 835/1000, true⟩ 60 60000 ""
    (by norm_num) (by norm_num) (by norm_num)

/-- Counterexample to C3 as stated: for the positive time 0.0007 and identical
classes, the returned outputTime is the rounded 0.001, not the input. -/
theorem samePax_counterexample :
    (calculatePaxTime (7/10000) (⟨"T", "T", 1, true⟩ : SoloClass)
        (⟨"T", "T", 1, true⟩ : SoloClass) "").map (fun r => r.outputTime)
      = .ok (1/1000) ∧ ((1 : ℚ)/1000) ≠ 7/10000 := by
  constructor
  · unfold calculatePaxTime
    rw [if_neg (by norm_num), if_neg (by norm_num)]
    simp only [Except.map, jsRound3]
    norm_num [Int.floor_eq_iff]
  · norm_num

/-- Claim C4 (confirmed): the conversion fails with the input-time message
exactly when inputTime ≤ 0; once inputTime is positive it fails with the
single combined PAX message exactly when either paxIndex is non-positive;
the two messages are distinct, and the input-time check runs first. -/
theorem calculatePaxTime_preconditions (t : ℚ) (ic oc : SoloClass) (now : String) :
    ((calculatePaxTime t ic oc now = .error "Input time must be greater than 0") ↔ t ≤ 0) ∧
    (0 < t → ((calculatePaxTime t ic oc now = .error "PAX indices must be greater than 0") ↔
      (ic.paxIndex ≤ 0 ∨ oc.paxIndex ≤ 0))) ∧
    ("Input time must be greater than 0" : String) ≠ "PAX indices must be greater than 0" := by
  refine ⟨?_, ?_, by decide⟩
  · unfold calculatePaxTime
    split_ifs with h1 h2
    · simp [h1]
    · simp [h1]
    · simp [h1]
  · intro ht
    unfold calculatePaxTime
    rw [if_neg (not_le.mpr ht)]
    split_ifs with h2
    · simp [h2]
    · simp [h2]


/-! ## Claims about the time parser -/

/-- Claim C5 (confirmed): the accepted grammars convert by plain positional
arithmetic, milliseconds are right-padded to three digits, and no semantic
range check is applied to minute or second components. -/
theorem parseTimeString_examples :
    parseTimeString "1:05.123" = .ok (65.123 : ℚ) ∧
    parseTimeString "60:00.000" = .ok (3600 : ℚ) ∧
    parseTimeString "1:99.000" = .ok (159 : ℚ) ∧
    parseTimeString "1:05.1" = .ok (65.1 : ℚ) := by
  refine ⟨?_, ?_, ?_, ?_⟩
  · have ht : jsTrim "1:05.123" = "1:05.123" := by decide
    have hm : matchMinSec ("1:05.123".data) = some (['1'], ['0', '5'], ['1', '2', '3']) := by
      decide
    have d1 : digitsToNat ['1'] = 1 := by decide
    have d2 : digitsToNat ['0', '5'] = 5 := by decide
    have d3 : digitsToNat (padEnd3 ['1', '2', '3']) = 123 := by decide
    unfold parseTimeString
    rw [ht, if_neg (by decide)]
    simp only [parseCleaned, hm, d1, d2, d3]
    norm_num
  · have ht : jsTrim "60:00.000" = "60:00.000" := by decide
    have hm : matchMinSec ("60:00.000".data) = some (['6', '0'], ['0', '0'], ['0', '0', '0']) := by
      decide
    have d1 : digitsToNat ['6', '0'] = 60 := by decide
    have d2 : digitsToNat ['0', '0'] = 0 := by decide
    have d3 : digitsToNat (padEnd3 ['0', '0', '0']) = 0 := by decide
    unfold parseTimeString
    rw [ht, if_neg (by decide)]
    simp only [parseCleaned, hm, d1, d2, d3]
    norm_num
  · have ht : jsTrim "1:99.000" = "1:99.000" := by decide
    have hm : matchMinSec ("1:99.000".data) = some (['1'], ['9', '9'], ['0', '0', '0']) := by
      decide
    have d1 : digitsToNat ['1'] = 1 := by decide
    have d2 : digitsToNat ['9', '9'] = 99 := by decide
    have d3 : digitsToNat (padEnd3 ['0', '0', '0']) = 0 := by decide
    unfold parseTimeString
    rw [ht, if_neg (by decide)]
    simp only [parseCleaned, hm, d1, d2, d3]
    norm_num
  · have ht : jsTrim "1:05.1" = "1:05.1" := by decide
    have hm : matchMinSec ("1:05.1".data) = some (['1'], ['0', '5'], ['1']) := by decide
    have d1 : digitsToNat ['1'] = 1 := by decide
    have d2 : digitsToNat ['0', '5'] = 5 := by decide
    have d3 : digitsToNat (padEnd3 ['1']) = 100 := by decide
    unfold parseTimeString
    rw [ht, if_neg (by decide)]
    simp only [parseCleaned, hm, d1, d2, d3]
    norm_num

/-- Truth value of an `Except` being a failure. -/
def isError (e : Except String ℚ) : Bool :=
  match e with
  | .error _ => true
  | .ok _ => false

/-- Claim C6 (confirmed): `parseTimeString` fails exactly when the trimmed
input is an exact full match of none of the four grammars; the empty and
whitespace-only strings trim to the empty list, which no grammar matches, so
partial matches, internal whitespace, extra separators and surrounding junk
are all rejected. -/
theorem parseTimeString_error_iff (s : String) :
    isError (parseTimeString s) = true ↔
      (matchMinSec (jsTrim s).data = none ∧ matchHours (jsTrim s).data = none ∧
       matchDecimal (jsTrim s).data = none ∧ matchWhole (jsTrim s).data = none) := by
  unfold parseTimeString
  by_cases he : (jsTrim s).data.isEmpty = true
  · rw [if_pos he]
    have hnil : (jsTrim s).data = [] := List.isEmpty_iff.mp he
    rw [hnil]
    refine ⟨fun _ => ⟨by decide, by decide, by decide, by decide⟩, fun _ => rfl⟩
  · rw [if_neg he]
    unfold parseCleaned
    rcases h1 : matchMinSec (jsTrim s).data with _ | ⟨m1, s1, ms1⟩
    · rcases h2 : matchHours (jsTrim s).data with _ | ⟨hh, m2, s2, ms2⟩
      · rcases h3 : matchDecimal (jsTrim s).data with _ | ⟨s3, ms3⟩
        · rcases h4 : matchWhole (jsTrim s).data with _ | s4
          · simp [isError, h1, h2, h3, h4]
          · simp [isError, h1, h2, h3, h4]
        · simp [isError, h1, h2, h3]
      · simp [isError, h1, h2]
    · simp [isError, h1]


/-! ## The dataset validator (`validatePaxIndex`)

Error and warning messages are built exactly as the source template
literals build them.  `JSON.stringify` and JavaScript number-to-string
conversion are modelled below; the validation claims only ever inspect
message prefixes, never the serialised payloads. -/

/-- Hexadecimal digit character. -/
def hexDigit (d : Nat) : Char :=
  match d with
  | 10 => 'a' | 11 => 'b' | 12 => 'c' | 13 => 'd' | 14 => 'e' | 15 => 'f'
  | _ => digitChar d

/-- JSON escaping of one character, as `JSON.stringify` emits it. -/
def jsonEscapeChar (c : Char) : List Char :=
  if c = '"' then ['\\', '"']
  else if c = '\\' then ['\\', '\\']
  else if c = '\n' then ['\\', 'n']
  else if c = '\t' then ['\\', 't']
  else if c = '\r' then ['\\', 'r']
  else if c = '\u0008' then ['\\', 'b']
  else if c = '\u000c' then ['\\', 'f']
  else if c.toNat < 32 then
    ['\\', 'u', '0', '0', hexDigit (c.toNat / 16), hexDigit (c.toNat % 16)]
  else [c]

/-- JSON string value with quotes. -/
def jsonStr (s : String) : String :=
  "\"" ++ String.mk (s.data.foldr (fun c acc => jsonEscapeChar c ++ acc) []) ++ "\""

/-- JavaScript number-to-string for non-negative values.  Exact for the
terminating decimals that PAX data contains (integers render without a
decimal point, fractions with the minimal number of decimal digits); rationals
without a terminating decimal expansion (which the source, operating on
binary doubles, cannot hold) fall back to a fraction rendering. -/
def jsNumReprNonneg (q : ℚ) : String :=
  if q.den = 1 then natRepr q.num.toNat
  else
    match (List.range 18).find? (fun k => (q * (10 ^ k : ℚ)).den = 1) with
    | some k =>
      natRepr ((q * (10 ^ k : ℚ)).num.toNat / 10 ^ k) ++ "." ++
        String.mk (natToDecimal ((q * (10 ^ k : ℚ)).num.toNat % 10 ^ k))
    | none => natRepr q.num.toNat ++ ("/" ++ natRepr q.den)

/-- JavaScript number-to-string (`${x}` interpolation). -/
def jsNumRepr (q : ℚ) : String :=
  if q < 0 then "-" ++ jsNumReprNonneg (-q) else jsNumReprNonneg q

/-- Model of `JSON.stringify` on a `SoloClass` (keys in declaration order). -/
def jsonOfClass (c : SoloClass) : String :=
  "\x7b" ++ (jsonStr "code" ++ (":" ++ (jsonStr c.code ++ ("," ++
    (jsonStr "name" ++ (":" ++ (jsonStr c.name ++ ("," ++
    (jsonStr "paxIndex" ++ (":" ++ (jsNumRepr c.paxIndex ++ ("," ++
    (jsonStr "isActive" ++ (":" ++ ((if c.isActive then "true" else "false") ++
    "\x7d")))))))))))))))

/-- Model of `JSON.stringify` on a `SoloClassGroup` (keys in declaration
order, classes serialised recursively). -/
def jsonOfGroup (g : SoloClassGroup) : String :=
  "\x7b" ++ (jsonStr "id" ++ (":" ++ (jsonStr g.id ++ ("," ++
    (jsonStr "name" ++ (":" ++ (jsonStr g.name ++ ("," ++
    (jsonStr "description" ++ (":" ++ (jsonStr g.description ++ ("," ++
    (jsonStr "classes" ++ (":[" ++ (String.intercalate "," (g.classes.map jsonOfClass) ++
    ("]" ++ "\x7d"))))))))))))))))

/-- Message of the duplicate-class-code error. -/
def dupMsg (code : String) : String := "Duplicate class code: " ++ code

/-- Message of the malformed-group error. -/
def groupMsg (g : SoloClassGroup) : String :=
  "Class group missing id or name: " ++ jsonOfGroup g

/-- Message of the malformed-class error. -/
def classMsg (c : SoloClass) : String :=
  "Class missing code or name: " ++ jsonOfClass c

/-- Message of the out-of-typical-range warning. -/
def rangeWarnMsg (c : SoloClass) : String :=
  "PAX index outside typical range for " ++ (c.code ++ (": " ++ jsNumRepr c.paxIndex))

/-- Message of the non-positive-PAX error. -/
def paxErrMsg (c : SoloClass) : String :=
  "Invalid PAX index for " ++ (c.code ++ (": " ++ jsNumRepr c.paxIndex))

/-- Message of the year error. -/
def yearMsg (y : Int) : String := "Invalid year: " ++ intRepr y

/-- Message of the index-type error. -/
def typeMsg (t : String) : String := "Invalid index type: " ++ t

/-- Message of the final lookup-count mismatch error. -/
def mismatchMsg (keyCount classCount : Nat) : String :=
  "Class lookup count mismatch: " ++ (natRepr keyCount ++ (" vs " ++ natRepr classCount))

/-- Mutable state of the validation loop: the running class counter, the
`seenCodes` set (as the list of its elements), and the accumulated errors
and warnings. -/
structure VState where
  classCount : Nat
  seenCodes : List String
  errors : List String
  warnings : List String

/-- Model of `Set.prototype.add`: membership-idempotent insertion. -/
def seenAdd (seen : List String) (code : String) : List String :=
  if code ∈ seen then seen else code :: seen

/-- One iteration of the inner class loop of `validatePaxIndex`: count the
class, report a duplicate code (then record the code as seen), report a
missing code or name, warn on a PAX index outside [0.7, 1.0], and report a
non-positive PAX index.  No check short-circuits any other. -/
def processClass (st : VState) (c : SoloClass) : VState :=
  { classCount := st.classCount + 1
    seenCodes := seenAdd st.seenCodes c.code
    errors := ((st.errors
      ++ (if c.code ∈ st.seenCodes then [dupMsg c.code] else []))
      ++ (if c.code = "" ∨ c.name = "" then [classMsg c] else []))
      ++ (if c.paxIndex ≤ 0 then [paxErrMsg c] else [])
    warnings := st.warnings
      ++ (if c.paxIndex < 7/10 ∨ 1 < c.paxIndex then [rangeWarnMsg c] else []) }

/-- One iteration of the outer group loop: a group with an empty id or name
gets one error and its classes are skipped (`continue`); otherwise the inner
loop runs over its classes. -/
def processGroup (st : VState) (g : SoloClassGroup) : VState :=
  if g.id = "" ∨ g.name = "" then
    { st with errors := st.errors ++ [groupMsg g] }
  else
    g.classes.foldl processClass st

/-- Model of `Object.keys(m).length`: the number of distinct keys. -/
def objectKeysLength (m : List (String × SoloClass)) : Nat :=
  (m.map Prod.fst).dedup.length

/-- Errors appended before the group loop of `validatePaxIndex`. -/
def structuralErrors (px : PaxIndex) : List String :=
  ((if px.year = 0 ∨ px.year < 2000 ∨ 2100 < px.year then [yearMsg px.year] else [])
    ++ (if px.indexType = "" ∨ px.indexType ∉ (["Solo", "ProSolo"] : List String) then
      [typeMsg px.indexType] else []))
    ++ (if px.classGroups.length = 0 then ["No class groups found"] else [])

/-- State after the group loop of `validatePaxIndex`. -/
def validateState (px : PaxIndex) : VState :=
  px.classGroups.foldl processGroup ⟨0, [], structuralErrors px, []⟩

/-- Full error list of `validatePaxIndex`, including the final
lookup-count check. -/
def validateErrors (px : PaxIndex) : List String :=
  (validateState px).errors
    ++ (if objectKeysLength px.classesByCode ≠ (validateState px).classCount then
      [mismatchMsg (objectKeysLength px.classesByCode) (validateState px).classCount]
    else [])

/-- Function `validatePaxIndex` from `src/lib/pax-calculator.ts`: structural
checks on year, index type and group count, the two-level loop over groups
and classes, and the final lookup-count comparison; `isValid` is the absence
of errors. -/
def validatePaxIndex (px : PaxIndex) : PaxValidationResult :=
  { isValid := (validateErrors px).isEmpty
    errors := validateErrors px
    warnings := (validateState px).warnings
    classCount := (validateState px).classCount
    groupCount := px.classGroups.length }

/-- Classes the validator's inner loop visits for a list of groups: those of
groups with a non-empty id and name, in order. -/
def travOfGroups (gs : List SoloClassGroup) : List SoloClass :=
  ((gs.filter fun g => decide (¬ (g.id = "" ∨ g.name = ""))).map
    (fun g => g.classes)).flatten

/-- Classes the validator's inner loop actually visits: those of groups with
a non-empty id and name, in order. -/
def travClasses (px : PaxIndex) : List SoloClass := travOfGroups px.classGroups


/-! ## Classifying messages by their fixed prefixes -/

/-- Boolean prefix test on character lists. -/
def listStarts : List Char → List Char → Bool
  | [], _ => true
  | _ :: _, [] => false
  | a :: as, b :: bs => a == b && listStarts as bs

/-- Boolean prefix test on strings. -/
def strStarts (pre m : String) : Bool := listStarts pre.data m.data

/-- Recogniser of non-positive-PAX error messages. -/
def isPaxErrMsg (m : String) : Bool := strStarts "Invalid PAX index for " m

theorem listStarts_append_self : ∀ p r : List Char, listStarts p (p ++ r) = true := by
  intro p r
  induction p with
  | nil => rfl
  | cons a as ih => simp [listStarts, ih]

theorem listStarts_diverge : ∀ p a r : List Char,
    listStarts (p.take a.length) a = false → listStarts p (a ++ r) = false := by
  intro p
  induction p with
  | nil =>
    intro a r h
    rw [List.take_nil] at h
    cases a <;> simp [listStarts] at h
  | cons x xs ih =>
    intro a r h
    cases a with
    | nil => simp [listStarts] at h
    | cons y ys =>
      rw [List.length_cons, List.take_succ_cons] at h
      simp only [listStarts, Bool.and_eq_false_iff] at h
      rcases h with h | h
      · simp [List.cons_append, listStarts, h]
      · simp [List.cons_append, listStarts, ih ys r h]

theorem string_data_inj {s t : String} (h : s.data = t.data) : s = t := by
  cases s
  cases t
  simp_all

theorem head?_str_append (a b : String) (c : Char)
    (h : a.data.head? = some c) : (a ++ b).data.head? = some c := by
  rw [String.data_append, List.head?_append, h]
  rfl

theorem dupMsg_head (c : String) : (dupMsg c).data.head? = some 'D' :=
  head?_str_append "Duplicate class code: " c 'D' (by decide)

theorem beq_dupMsg_false {m : String} (c : String) (hm : m.data.head? ≠ some 'D') :
    (m == dupMsg c) = false :=
  beq_eq_false_iff_ne.mpr fun he => hm (by rw [he, dupMsg_head])

theorem beq_dupMsg_iff (x c : String) : (dupMsg x == dupMsg c) = true ↔ x = c := by
  rw [beq_iff_eq]
  constructor
  · intro he
    have hd := congrArg String.data he
    rw [dupMsg, dupMsg, String.data_append, String.data_append] at hd
    exact string_data_inj (List.append_cancel_left hd)
  · intro he
    rw [he]

theorem strStarts_append (pre rest : String) : strStarts pre (pre ++ rest) = true := by
  rw [strStarts, String.data_append]
  exact listStarts_append_self pre.data rest.data

theorem strStarts_app_false {pre lit : String} (rest : String)
    (h : listStarts (pre.data.take lit.data.length) lit.data = false) :
    strStarts pre (lit ++ rest) = false := by
  rw [strStarts, String.data_append]
  exact listStarts_diverge pre.data lit.data rest.data h

theorem isPaxErrMsg_paxErrMsg (c : SoloClass) : isPaxErrMsg (paxErrMsg c) = true :=
  strStarts_append _ _

theorem isPaxErrMsg_dupMsg (c : String) : isPaxErrMsg (dupMsg c) = false :=
  strStarts_app_false c (by decide)

theorem isPaxErrMsg_classMsg (c : SoloClass) : isPaxErrMsg (classMsg c) = false :=
  strStarts_app_false _ (by decide)

theorem isPaxErrMsg_groupMsg (g : SoloClassGroup) : isPaxErrMsg (groupMsg g) = false :=
  strStarts_app_false _ (by decide)

theorem isPaxErrMsg_yearMsg (y : Int) : isPaxErrMsg (yearMsg y) = false :=
  strStarts_app_false _ (by decide)

theorem isPaxErrMsg_typeMsg (t : String) : isPaxErrMsg (typeMsg t) = false :=
  strStarts_app_false _ (by decide)

theorem isPaxErrMsg_noGroups : isPaxErrMsg "No class groups found" = false := by decide

theorem isPaxErrMsg_mismatchMsg (a b : Nat) : isPaxErrMsg (mismatchMsg a b) = false :=
  strStarts_app_false _ (by decide)

theorem beq_dupMsg_classMsg (x : SoloClass) (c : String) :
    (classMsg x == dupMsg c) = false :=
  beq_dupMsg_false c (by rw [classMsg, head?_str_append _ _ 'C' (by decide)]; decide)

theorem beq_dupMsg_groupMsg (g : SoloClassGroup) (c : String) :
    (groupMsg g == dupMsg c) = false :=
  beq_dupMsg_false c (by rw [groupMsg, head?_str_append _ _ 'C' (by decide)]; decide)

theorem beq_dupMsg_paxErrMsg (x : SoloClass) (c : String) :
    (paxErrMsg x == dupMsg c) = false :=
  beq_dupMsg_false c (by rw [paxErrMsg, head?_str_append _ _ 'I' (by decide)]; decide)

theorem beq_dupMsg_yearMsg (y : Int) (c : String) :
    (yearMsg y == dupMsg c) = false :=
  beq_dupMsg_false c (by rw [yearMsg, head?_str_append _ _ 'I' (by decide)]; decide)

theorem beq_dupMsg_typeMsg (t : String) (c : String) :
    (typeMsg t == dupMsg c) = false :=
  beq_dupMsg_false c (by rw [typeMsg, head?_str_append _ _ 'I' (by decide)]; decide)

theorem beq_dupMsg_noGroups (c : String) :
    (("No class groups found" : String) == dupMsg c) = false :=
  beq_dupMsg_false c (by decide)

theorem beq_dupMsg_mismatchMsg (a b : Nat) (c : String) :
    (mismatchMsg a b == dupMsg c) = false :=
  beq_dupMsg_false c (by rw [mismatchMsg, head?_str_append _ _ 'C' (by decide)]; decide)


/-! ## Counting helpers -/

theorem countP_if_false (p : String → Bool) {cond : Prop} [Decidable cond] {m : String}
    (h : p m = false) : (if cond then [m] else []).countP p = 0 := by
  split_ifs
  · simp [List.countP_cons, h]
  · rfl

theorem countP_if_pred (p : String → Bool) {cond : Prop} [Decidable cond] {m : String}
    (h : p m = true) :
    (if cond then [m] else []).countP p = if cond then 1 else 0 := by
  split_ifs
  · simp [List.countP_cons, h]
  · rfl

/-! ## Invariants of the class loop -/

theorem ite_decide_one {p : Prop} [Decidable p] (h : p) :
    (if (decide p) = true then 1 else 0) = 1 := by simp [h]

theorem ite_decide_zero {p : Prop} [Decidable p] (h : ¬ p) :
    (if (decide p) = true then 1 else 0) = 0 := by simp [h]

theorem processClass_classCount (st : VState) (c : SoloClass) :
    (processClass st c).classCount = st.classCount + 1 := rfl

theorem processClass_seen (st : VState) (c : SoloClass) (x : String) :
    x ∈ (processClass st c).seenCodes ↔ x ∈ st.seenCodes ∨ c.code = x := by
  show x ∈ seenAdd st.seenCodes c.code ↔ _
  unfold seenAdd
  split_ifs with h
  · constructor
    · exact Or.inl
    · rintro (hx | hx)
      · exact hx
      · rwa [hx] at h
  · rw [List.mem_cons]
    constructor
    · rintro (hx | hx)
      · exact Or.inr hx.symm
      · exact Or.inl hx
    · rintro (hx | hx)
      · exact Or.inr hx
      · exact Or.inl hx.symm

theorem processClass_dup_count (st : VState) (c : SoloClass) (x : String) :
    (processClass st c).errors.countP (fun m => m == dupMsg x)
      = st.errors.countP (fun m => m == dupMsg x) +
        (if c.code ∈ st.seenCodes ∧ c.code = x then 1 else 0) := by
  show (((st.errors ++ _) ++ _) ++ _).countP _ = _
  rw [List.countP_append, List.countP_append, List.countP_append]
  rw [countP_if_false (fun m => m == dupMsg x) (beq_dupMsg_classMsg c x),
    countP_if_false (fun m => m == dupMsg x) (beq_dupMsg_paxErrMsg c x)]
  by_cases hcx : c.code = x
  · have hbeq : ((fun m => m == dupMsg x) (dupMsg c.code)) = true :=
      (beq_dupMsg_iff c.code x).mpr hcx
    rw [countP_if_pred (fun m => m == dupMsg x) hbeq]
    by_cases hmem : c.code ∈ st.seenCodes
    · rw [if_pos hmem, if_pos ⟨hmem, hcx⟩]
    · rw [if_neg hmem, if_neg (fun h => hmem h.1)]
  · have hbeq : ((fun m => m == dupMsg x) (dupMsg c.code)) = false := by
      cases hb : (dupMsg c.code == dupMsg x)
      · exact hb
      · exact absurd ((beq_dupMsg_iff c.code x).mp hb) hcx
    rw [countP_if_false (fun m => m == dupMsg x) hbeq, if_neg (fun h => hcx h.2)]

theorem processClass_pax_count (st : VState) (c : SoloClass) :
    (processClass st c).errors.countP isPaxErrMsg
      = st.errors.countP isPaxErrMsg + (if c.paxIndex ≤ 0 then 1 else 0) := by
  show (((st.errors ++ _) ++ _) ++ _).countP _ = _
  rw [List.countP_append, List.countP_append, List.countP_append]
  rw [countP_if_false isPaxErrMsg (isPaxErrMsg_dupMsg c.code),
    countP_if_false isPaxErrMsg (isPaxErrMsg_classMsg c),
    countP_if_pred isPaxErrMsg (isPaxErrMsg_paxErrMsg c)]
  omega

theorem processClass_warn (st : VState) (c : SoloClass) :
    (processClass st c).warnings.length
      = st.warnings.length + (if c.paxIndex < 7/10 ∨ 1 < c.paxIndex then 1 else 0) := by
  show (st.warnings ++ _).length = _
  rw [List.length_append]
  split_ifs
  · rfl
  · rfl

theorem foldl_pc_classCount : ∀ (cs : List SoloClass) (st : VState),
    (cs.foldl processClass st).classCount = st.classCount + cs.length := by
  intro cs
  induction cs with
  | nil => intro st; rfl
  | cons c tl ih =>
    intro st
    rw [List.foldl_cons, ih, processClass_classCount, List.length_cons]
    omega

theorem foldl_pc_seen : ∀ (cs : List SoloClass) (st : VState) (x : String),
    x ∈ (cs.foldl processClass st).seenCodes ↔
      x ∈ st.seenCodes ∨ ∃ c ∈ cs, c.code = x := by
  intro cs
  induction cs with
  | nil =>
    intro st x
    simp
  | cons c tl ih =>
    intro st x
    rw [List.foldl_cons, ih, processClass_seen]
    constructor
    · rintro ((hx | hx) | ⟨c2, hc2, he⟩)
      · exact Or.inl hx
      · exact Or.inr ⟨c, List.mem_cons_self c tl, hx⟩
      · exact Or.inr ⟨c2, List.mem_cons_of_mem c hc2, he⟩
    · rintro (hx | ⟨c2, hc2, he⟩)
      · exact Or.inl (Or.inl hx)
      · rcases List.mem_cons.mp hc2 with hc2 | hc2
        · exact Or.inl (Or.inr (by rw [← hc2]; exact he))
        · exact Or.inr ⟨c2, hc2, he⟩

theorem foldl_pc_warn : ∀ (cs : List SoloClass) (st : VState),
    (cs.foldl processClass st).warnings.length
      = st.warnings.length + cs.countP (fun c => decide (c.paxIndex < 7/10 ∨ 1 < c.paxIndex)) := by
  intro cs
  induction cs with
  | nil => intro st; rfl
  | cons c tl ih =>
    intro st
    rw [List.foldl_cons, ih, processClass_warn, List.countP_cons]
    by_cases h : c.paxIndex < 7/10 ∨ 1 < c.paxIndex
    · rw [if_pos h, ite_decide_one h]
      omega
    · rw [if_neg h, ite_decide_zero h]
      omega

theorem foldl_pc_pax : ∀ (cs : List SoloClass) (st : VState),
    (cs.foldl processClass st).errors.countP isPaxErrMsg
      = st.errors.countP isPaxErrMsg + cs.countP (fun c => decide (c.paxIndex ≤ 0)) := by
  intro cs
  induction cs with
  | nil => intro st; rfl
  | cons c tl ih =>
    intro st
    rw [List.foldl_cons, ih, processClass_pax_count, List.countP_cons]
    by_cases h : c.paxIndex ≤ 0
    · rw [if_pos h, ite_decide_one h]
      omega
    · rw [if_neg h, ite_decide_zero h]
      omega

theorem foldl_pc_dup : ∀ (cs : List SoloClass) (st : VState) (x : String),
    (cs.foldl processClass st).errors.countP (fun m => m == dupMsg x)
      = st.errors.countP (fun m => m == dupMsg x) +
        (if x ∈ st.seenCodes then cs.countP (fun c => c.code == x)
         else cs.countP (fun c => c.code == x) - 1) := by
  intro cs
  induction cs with
  | nil =>
    intro st x
    split_ifs <;> simp
  | cons c tl ih =>
    intro st x
    rw [List.foldl_cons, ih, processClass_dup_count, List.countP_cons,
      if_congr (processClass_seen st c x) rfl rfl]
    by_cases hcx : c.code = x
    · have h1 : (if ((fun c : SoloClass => c.code == x) c) = true then 1 else 0) = 1 := by
        simp [beq_iff_eq, hcx]
      rw [h1]
      by_cases hxm : x ∈ st.seenCodes
      · rw [if_pos ⟨by rwa [hcx], hcx⟩, if_pos (Or.inl hxm), if_pos hxm]
        omega
      · rw [if_neg (fun h => hxm (hcx ▸ h.1)), if_pos (Or.inr hcx), if_neg hxm]
        omega
    · have h0 : (if ((fun c : SoloClass => c.code == x) c) = true then 1 else 0) = 0 := by
        simp [beq_iff_eq, hcx]
      rw [h0]
      by_cases hxm : x ∈ st.seenCodes
      · rw [if_neg (fun h => hcx h.2), if_pos (Or.inl hxm), if_pos hxm]
        omega
      · rw [if_neg (fun h => hcx h.2), if_neg (fun h => h.elim hxm hcx), if_neg hxm]
        omega


/-! ## Invariants of the group loop -/

theorem travOfGroups_cons (g : SoloClassGroup) (gs : List SoloClassGroup) :
    travOfGroups (g :: gs)
      = (if g.id = "" ∨ g.name = "" then [] else g.classes) ++ travOfGroups gs := by
  by_cases hg : g.id = "" ∨ g.name = ""
  · have hc : ¬ (¬ g.id = "" ∧ ¬ g.name = "") := fun h => hg.elim h.1 h.2
    rw [if_pos hg]
    simp [travOfGroups, List.filter_cons, hc]
  · have hc : ¬ g.id = "" ∧ ¬ g.name = "" :=
      ⟨fun e => hg (Or.inl e), fun e => hg (Or.inr e)⟩
    rw [if_neg hg]
    simp [travOfGroups, List.filter_cons, hc]

theorem processGroup_invalid {g : SoloClassGroup} (st : VState)
    (hg : g.id = "" ∨ g.name = "") :
    processGroup st g = { st with errors := st.errors ++ [groupMsg g] } := by
  rw [processGroup, if_pos hg]

theorem processGroup_valid {g : SoloClassGroup} (st : VState)
    (hg : ¬ (g.id = "" ∨ g.name = "")) :
    processGroup st g = g.classes.foldl processClass st := by
  rw [processGroup, if_neg hg]

theorem foldl_pg_classCount : ∀ (gs : List SoloClassGroup) (st : VState),
    (gs.foldl processGroup st).classCount = st.classCount + (travOfGroups gs).length := by
  intro gs
  induction gs with
  | nil => intro st; rfl
  | cons g gs ih =>
    intro st
    rw [List.foldl_cons, travOfGroups_cons, List.length_append]
    by_cases hg : g.id = "" ∨ g.name = ""
    · rw [processGroup_invalid st hg, ih, if_pos hg]
      simp
    · rw [processGroup_valid st hg, ih, if_neg hg, foldl_pc_classCount]
      omega

theorem foldl_pg_warn : ∀ (gs : List SoloClassGroup) (st : VState),
    (gs.foldl processGroup st).warnings.length
      = st.warnings.length +
        (travOfGroups gs).countP (fun c => decide (c.paxIndex < 7/10 ∨ 1 < c.paxIndex)) := by
  intro gs
  induction gs with
  | nil => intro st; rfl
  | cons g gs ih =>
    intro st
    rw [List.foldl_cons, travOfGroups_cons, List.countP_append]
    by_cases hg : g.id = "" ∨ g.name = ""
    · rw [processGroup_invalid st hg, ih, if_pos hg]
      simp
    · rw [processGroup_valid st hg, ih, if_neg hg, foldl_pc_warn]
      omega

theorem foldl_pg_pax : ∀ (gs : List SoloClassGroup) (st : VState),
    (gs.foldl processGroup st).errors.countP isPaxErrMsg
      = st.errors.countP isPaxErrMsg +
        (travOfGroups gs).countP (fun c => decide (c.paxIndex ≤ 0)) := by
  intro gs
  induction gs with
  | nil => intro st; rfl
  | cons g gs ih =>
    intro st
    rw [List.foldl_cons, travOfGroups_cons, List.countP_append]
    by_cases hg : g.id = "" ∨ g.name = ""
    · rw [processGroup_invalid st hg, ih, if_pos hg]
      have he : ({ st with errors := st.errors ++ [groupMsg g] } : VState).errors.countP
          isPaxErrMsg = st.errors.countP isPaxErrMsg := by
        show (st.errors ++ [groupMsg g]).countP isPaxErrMsg = _
        rw [List.countP_append]
        simp [List.countP_cons, isPaxErrMsg_groupMsg g]
      rw [he]
      simp
    · rw [processGroup_valid st hg, ih, if_neg hg, foldl_pc_pax]
      omega

theorem foldl_pg_seen : ∀ (gs : List SoloClassGroup) (st : VState) (x : String),
    x ∈ (gs.foldl processGroup st).seenCodes ↔
      x ∈ st.seenCodes ∨ ∃ c ∈ travOfGroups gs, c.code = x := by
  intro gs
  induction gs with
  | nil =>
    intro st x
    simp [travOfGroups]
  | cons g gs ih =>
    intro st x
    rw [List.foldl_cons, travOfGroups_cons]
    by_cases hg : g.id = "" ∨ g.name = ""
    · rw [processGroup_invalid st hg, ih, if_pos hg, List.nil_append]
    · rw [processGroup_valid st hg, ih, if_neg hg]
      rw [foldl_pc_seen]
      constructor
      · rintro ((hx | ⟨c, hc, he⟩) | ⟨c, hc, he⟩)
        · exact Or.inl hx
        · exact Or.inr ⟨c, List.mem_append.mpr (Or.inl hc), he⟩
        · exact Or.inr ⟨c, List.mem_append.mpr (Or.inr hc), he⟩
      · rintro (hx | ⟨c, hc, he⟩)
        · exact Or.inl (Or.inl hx)
        · rcases List.mem_append.mp hc with hc | hc
          · exact Or.inl (Or.inr ⟨c, hc, he⟩)
          · exact Or.inr ⟨c, hc, he⟩

theorem foldl_pg_dup : ∀ (gs : List SoloClassGroup) (st : VState) (x : String),
    (gs.foldl processGroup st).errors.countP (fun m => m == dupMsg x)
      = st.errors.countP (fun m => m == dupMsg x) +
        (if x ∈ st.seenCodes then (travOfGroups gs).countP (fun c => c.code == x)
         else (travOfGroups gs).countP (fun c => c.code == x) - 1) := by
  intro gs
  induction gs with
  | nil =>
    intro st x
    show _ = _ + (if _ then List.countP _ (travOfGroups []) else List.countP _ (travOfGroups []) - 1)
    split_ifs <;> simp [travOfGroups]
  | cons g gs ih =>
    intro st x
    rw [List.foldl_cons, travOfGroups_cons, List.countP_append]
    by_cases hg : g.id = "" ∨ g.name = ""
    · rw [processGroup_invalid st hg, ih, if_pos hg]
      show (st.errors ++ [groupMsg g]).countP _ + _ = _
      rw [List.countP_append]
      simp [List.countP_cons, beq_dupMsg_groupMsg g x]
    · rw [processGroup_valid st hg, ih, if_neg hg]
      rw [foldl_pc_dup, if_congr (foldl_pc_seen g.classes st x) rfl rfl]
      have hex : (∃ c ∈ g.classes, c.code = x) ↔
          1 ≤ g.classes.countP (fun c => c.code == x) := by
        constructor
        · rintro ⟨c, hc, he⟩
          exact List.countP_pos_iff.mpr ⟨c, hc, beq_iff_eq.mpr he⟩
        · intro h
          obtain ⟨c, hc, he⟩ := List.countP_pos_iff.mp h
          exact ⟨c, hc, beq_iff_eq.mp he⟩
      by_cases hxm : x ∈ st.seenCodes
      · rw [if_pos hxm, if_pos (Or.inl hxm), if_pos hxm]
        omega
      · rw [if_neg hxm, if_neg hxm]
        by_cases hex2 : ∃ c ∈ g.classes, c.code = x
        · have h1 := hex.mp hex2
          rw [if_pos (Or.inr hex2)]
          omega
        · have h0 : ¬ 1 ≤ g.classes.countP (fun c => c.code == x) :=
            fun h => hex2 (hex.mpr h)
          rw [if_neg (fun h => h.elim hxm hex2)]
          omega

/-! ## Assembling the validator counts -/

theorem structural_dup_count (px : PaxIndex) (x : String) :
    (structuralErrors px).countP (fun m => m == dupMsg x) = 0 := by
  unfold structuralErrors
  rw [List.countP_append, List.countP_append,
    countP_if_false (fun m => m == dupMsg x) (beq_dupMsg_yearMsg px.year x),
    countP_if_false (fun m => m == dupMsg x) (beq_dupMsg_typeMsg px.indexType x),
    countP_if_false (fun m => m == dupMsg x) (beq_dupMsg_noGroups x)]

theorem structural_pax_count (px : PaxIndex) :
    (structuralErrors px).countP isPaxErrMsg = 0 := by
  unfold structuralErrors
  rw [List.countP_append, List.countP_append,
    countP_if_false isPaxErrMsg (isPaxErrMsg_yearMsg px.year),
    countP_if_false isPaxErrMsg (isPaxErrMsg_typeMsg px.indexType),
    countP_if_false isPaxErrMsg isPaxErrMsg_noGroups]

theorem validateErrors_dup_count (px : PaxIndex) (x : String) :
    (validateErrors px).countP (fun m => m == dupMsg x)
      = (travClasses px).countP (fun c => c.code == x) - 1 := by
  unfold validateErrors
  rw [List.countP_append,
    countP_if_false (fun m => m == dupMsg x) (beq_dupMsg_mismatchMsg _ _ x)]
  show (validateState px).errors.countP _ + 0 = _
  unfold validateState
  rw [foldl_pg_dup, structural_dup_count, if_neg (List.not_mem_nil x)]
  unfold travClasses
  omega

theorem validateErrors_pax_count (px : PaxIndex) :
    (validateErrors px).countP isPaxErrMsg
      = (travClasses px).countP (fun c => decide (c.paxIndex ≤ 0)) := by
  unfold validateErrors
  rw [List.countP_append, countP_if_false isPaxErrMsg (isPaxErrMsg_mismatchMsg _ _)]
  show (validateState px).errors.countP _ + 0 = _
  unfold validateState
  rw [foldl_pg_pax, structural_pax_count]
  unfold travClasses
  omega

/-! ## Claims about the validator -/

/-- Claim C8 (confirmed): each occurrence of a class code beyond its first
(among the classes the validator traverses: those of groups with non-empty
id and name, across all groups through one running seen-set) yields exactly
one duplicate-code error; any duplicate forces `isValid = false`; and the
remaining per-class checks still run on duplicate entries — the count of
invalid-PAX errors equals the count of traversed classes with a non-positive
index, duplicates included. -/
theorem validate_duplicate_codes (px : PaxIndex) (code : String) :
    (validatePaxIndex px).errors.countP (fun m => m == dupMsg code)
        = (travClasses px).countP (fun c => c.code == code) - 1 ∧
    (2 ≤ (travClasses px).countP (fun c => c.code == code) →
      (validatePaxIndex px).isValid = false) ∧
    (validatePaxIndex px).errors.countP isPaxErrMsg
        = (travClasses px).countP (fun c => decide (c.paxIndex ≤ 0)) := by
  refine ⟨validateErrors_dup_count px code, ?_, validateErrors_pax_count px⟩
  intro h2
  have hpos : 0 < (validateErrors px).countP (fun m => m == dupMsg code) := by
    rw [validateErrors_dup_count px code]
    omega
  have hne : validateErrors px ≠ [] := by
    obtain ⟨m, hm, _⟩ := List.countP_pos_iff.mp hpos
    exact List.ne_nil_of_mem hm
  show (validateErrors px).isEmpty = false
  exact Bool.eq_false_iff.mpr (fun h => hne (List.isEmpty_iff.mp h))


/-- Dataset whose only anomaly is a PAX index of 1.1 (outside [0.7, 1.0]). -/
def c9example : PaxIndex :=
  { year := 2024
    indexType := "Solo"
    version := "1.0.0"
    releaseDate := "2024-01-01"
    lastUpdated := "2024-01-01"
    classGroups := [⟨"test", "Test", "Test group",
      [⟨"EXTREME", "Extreme Class", 11/10, true⟩]⟩]
    classesByCode := [("EXTREME", ⟨"EXTREME", "Extreme Class", 11/10, true⟩)] }

/-- Claim C9 (confirmed): a traversed class outside [0.7, 1.0] contributes
exactly one warning and a non-positive PAX index exactly one error, with a
non-positive value firing both (the error count never exceeds the warning
count); validity is exactly emptiness of the errors, so warnings never
affect it — in particular a dataset whose only anomaly is PAX 1.1 is valid
with one warning. -/
theorem validate_warnings_validity (px : PaxIndex) :
    ((validatePaxIndex px).isValid = true ↔ (validatePaxIndex px).errors = []) ∧
    (validatePaxIndex px).warnings.length
        = (travClasses px).countP (fun c => decide (c.paxIndex < 7/10 ∨ 1 < c.paxIndex)) ∧
    (validatePaxIndex px).errors.countP isPaxErrMsg
        = (travClasses px).countP (fun c => decide (c.paxIndex ≤ 0)) ∧
    (travClasses px).countP (fun c => decide (c.paxIndex ≤ 0))
        ≤ (travClasses px).countP (fun c => decide (c.paxIndex < 7/10 ∨ 1 < c.paxIndex)) ∧
    ((validatePaxIndex c9example).isValid = true ∧
      (validatePaxIndex c9example).warnings.length = 1) := by
  refine ⟨List.isEmpty_iff, ?_, validateErrors_pax_count px, ?_, ?_, ?_⟩
  · show (validateState px).warnings.length = _
    unfold validateState
    rw [foldl_pg_warn]
    unfold travClasses
    simp
  · refine List.countP_mono_left ?_
    intro c _ hp
    rw [decide_eq_true_eq] at hp
    rw [decide_eq_true_eq]
    exact Or.inl (lt_of_le_of_lt hp (by norm_num))
  · show (validateErrors c9example).isEmpty = true
    have herr : validateErrors c9example = [] := by
      norm_num [validateErrors, validateState, structuralErrors, processGroup,
        processClass, seenAdd, objectKeysLength, c9example,
        List.dedup_cons_of_not_mem,
        (show ¬ (("test" : String) = "" ∨ ("Test" : String) = "") from by decide),
        (show ¬ (("EXTREME" : String) = "" ∨ ("Extreme Class" : String) = "") from by decide),
        (show ¬ ("Solo" : String) = "" from by decide)]
    rw [herr]
    rfl
  · show (validateState c9example).warnings.length = 1
    unfold validateState
    rw [foldl_pg_warn]
    norm_num [travOfGroups, c9example, List.filter_cons,
      (show ¬ ("test" : String) = "" from by decide),
      (show ¬ ("Test" : String) = "" from by decide)]

/-- Dataset whose code-to-class mapping has the right number of entries but a
key matching no traversed class code. -/
def c10example : PaxIndex :=
  { year := 2024
    indexType := "Solo"
    version := "1.0.0"
    releaseDate := "2024-01-01"
    lastUpdated := "2024-01-01"
    classGroups := [⟨"g", "Group", "A group", [⟨"A", "Class A", 9/10, true⟩]⟩]
    classesByCode := [("ZZZ", ⟨"ZZZ", "Other", 9/10, true⟩)] }

/-- Claim C10 (confirmed): the final lookup check compares only entry counts,
never keys or values — a dataset whose mapping has one entry keyed `"ZZZ"`
while the only traversed class code is `"A"` produces no mismatch error and
validates successfully. -/
theorem validate_lookup_count_only :
    (validatePaxIndex c10example).isValid = true ∧
    (validatePaxIndex c10example).errors = [] ∧
    c10example.classesByCode.map Prod.fst = ["ZZZ"] ∧
    (travClasses c10example).map (fun c => c.code) = ["A"] ∧
    objectKeysLength c10example.classesByCode = (validatePaxIndex c10example).classCount ∧
    ("ZZZ" : String) ∉ (travClasses c10example).map (fun c => c.code) := by
  have herr : validateErrors c10example = [] := by
    norm_num [validateErrors, validateState, structuralErrors, processGroup,
      processClass, seenAdd, objectKeysLength, c10example,
      List.dedup_cons_of_not_mem,
      (show ¬ (("g" : String) = "" ∨ ("Group" : String) = "") from by decide),
      (show ¬ (("A" : String) = "" ∨ ("Class A" : String) = "") from by decide),
      (show ¬ ("Solo" : String) = "" from by decide)]
  refine ⟨?_, herr, by decide, ?_, ?_, ?_⟩
  · show (validateErrors c10example).isEmpty = true
    rw [herr]
    rfl
  · norm_num [travClasses, travOfGroups, c10example, List.filter_cons,
      (show ¬ ("g" : String) = "" from by decide),
      (show ¬ ("Group" : String) = "" from by decide)]
  · show _ = (validateState c10example).classCount
    unfold validateState
    rw [foldl_pg_classCount]
    norm_num [travOfGroups, c10example, objectKeysLength, List.filter_cons,
      List.dedup_cons_of_not_mem,
      (show ¬ ("g" : String) = "" from by decide),
      (show ¬ ("Group" : String) = "" from by decide)]
  · norm_num [travClasses, travOfGroups, c10example, List.filter_cons,
      (show ¬ ("g" : String) = "" from by decide),
      (show ¬ ("Group" : String) = "" from by decide),
      (show ¬ ("ZZZ" : String) = "A" from by decide)]

end PaxWeb
